import Mathlib

set_option autoImplicit false

/-!
Shallow embedding of the TBone core: the resource dispatch engine
(`tbone/resources/resources.py`) and the field/validator system
(`tbone/data/fields/base.py`).  Machine-level Python values are modelled by
the inductive `Value`; Python dicts become association lists with
insertion-order semantics (`getKey`, `setKey`, `updateKeys`); Python
exceptions become the inductive `Exc` and fallible code returns
`Except Exc _`.
-/

namespace TBone

/-- Python-like runtime values, as far as the dispatch and serialization
code distinguishes them: strings, `None`, lists, dicts with string keys
(in insertion order), and arbitrary non-JSON-serializable objects
(`pyObj`). -/
inductive Value : Type where
  | str (s : String)
  | pyNone
  | pyObj
  | arr (items : List Value)
  | obj (fields : List (String × Value))

/-- Python `d.get(k)` / `d[k]` lookup on a dict in insertion order. -/
def getKey {α : Type} : List (String × α) → String → Option α
  | [], _ => none
  | (k, v) :: rest, key => if k = key then some v else getKey rest key

/-- Python `d[k] = v`: replace in place when the key exists (keeping its
position in the insertion order), otherwise append at the end.  This is
the ordinary semantics of `dict` / `OrderedDict` item assignment. -/
def setKey {α : Type} : List (String × α) → String → α → List (String × α)
  | [], key, val => [(key, val)]
  | (k, v) :: rest, key, val =>
      if k = key then (k, val) :: rest else (k, v) :: setKey rest key val

/-- Python `d.update(e)`: assign every entry of `e` into `d` in order. -/
def updateKeys {α : Type} (d e : List (String × α)) : List (String × α) :=
  e.foldl (fun acc kv => setKey acc kv.1 kv.2) d

mutual

/-- Whether a value is inside the JSON-serializable fragment (no opaque
`pyObj` anywhere); `json.dumps` raises `TypeError` outside it. -/
def jsonOk : Value → Bool
  | .str _ => true
  | .pyNone => true
  | .pyObj => false
  | .arr items => jsonOkList items
  | .obj fields => jsonOkFields fields

/-- JSON-serializability of every element of a Python list. -/
def jsonOkList : List Value → Bool
  | [] => true
  | v :: rest => jsonOk v && jsonOkList rest

/-- JSON-serializability of every entry value of a Python dict. -/
def jsonOkFields : List (String × Value) → Bool
  | [] => true
  | (_, v) :: rest => jsonOk v && jsonOkFields rest

end

mutual

/-- JSON text for a value (the exact spacing of the rendering is not
load-bearing for any claim; only that it is a fixed injective-enough
encoding of the structure handed to the serializer). -/
def render : Value → String
  | .str s => "\"" ++ s ++ "\""
  | .pyNone => "null"
  | .pyObj => "<unserializable>"
  | .arr items => "[" ++ renderList items ++ "]"
  | .obj fields => "\x7b" ++ renderFields fields ++ "\x7d"

/-- JSON text for the elements of a Python list, comma separated. -/
def renderList : List Value → String
  | [] => ""
  | [v] => render v
  | v :: rest => render v ++ ", " ++ renderList rest

/-- JSON text for the entries of a Python dict, comma separated. -/
def renderFields : List (String × Value) → String
  | [] => ""
  | [(k, v)] => "\"" ++ k ++ "\": " ++ render v
  | (k, v) :: rest => "\"" ++ k ++ "\": " ++ render v ++ ", " ++ renderFields rest

end

/-- Python `str()` on the values the model distinguishes; exact for
strings (the only case the claims exercise), `"None"` for `None`. -/
def pyStr : Value → String
  | .str s => s
  | .pyNone => "None"
  | .pyObj => "<object>"
  | .arr items => render (.arr items)
  | .obj fields => render (.obj fields)

/-- Whether a value is Python `None` (`data is None`). -/
def Value.isNone : Value → Bool
  | .pyNone => true
  | _ => false

/-- Python exceptions that the dispatch pipeline distinguishes.
Modelled from the spec: the four HTTP error classes
(`MethodNotImplemented`, `MethodNotAllowed`, `Unauthorized`, `NotFound`)
live in `tbone/resources/http.py`, which is not part of the given
sources; the spec assigns them statuses 501, 405, 401 and 404.
`keyError`, `typeError` and `attributeError` model the Python builtin
exceptions; `appError` models any exception escaping an action method or
a serializer, carrying its `args` and an optional `status` attribute. -/
inductive Exc : Type where
  | methodNotImplemented (msg : String)
  | methodNotAllowed (msg : String)
  | unauthorized
  | notFound
  | keyError (key : String)
  | typeError
  | attributeError (msg : String)
  | appError (args : List Value) (status : Option Nat)

/-- The `args` tuple of an exception (`err.args`). -/
def Exc.args : Exc → List Value
  | .methodNotImplemented m => [.str m]
  | .methodNotAllowed m => [.str m]
  | .unauthorized => []
  | .notFound => []
  | .keyError k => [.str k]
  | .typeError => []
  | .attributeError m => [.str m]
  | .appError a _ => a

/-- The `status` attribute of an exception if it has one
(`getattr(err, 'status', ...)` finds it).  Modelled from the spec: the
HTTP error classes carry 501 / 405 / 401 / 404; builtin exceptions carry
none. -/
def Exc.status : Exc → Option Nat
  | .methodNotImplemented _ => some 501
  | .methodNotAllowed _ => some 405
  | .unauthorized => some 401
  | .notFound => some 404
  | .keyError _ => none
  | .typeError => none
  | .attributeError _ => none
  | .appError _ s => s

/-- Python `str(err)` on an exception: empty for no args, the single arg
for one arg, a tuple rendering otherwise. -/
def excStr (e : Exc) : String :=
  match e.args with
  | [] => ""
  | [v] => pyStr v
  | vs => "(" ++ renderList vs ++ ")"

/-- A serializer instance, by the two operations the dispatch engine
uses (`_meta.serializer.serialize` / `.deserialize`); both may raise. -/
structure Serializer : Type where
  serialize : Value → Except Exc String
  deserialize : String → Except Exc Value

/-- Modelled from the spec: `JSONSerializer.serialize` from
`tbone/resources/serializers.py` (not among the given sources), which
JSON-encodes a value and raises `TypeError` on values outside the
JSON-serializable fragment. -/
def jsonSerialize (v : Value) : Except Exc String :=
  if jsonOk v then .ok (render v) else .error .typeError

/-- Modelled from the spec: the default `JSONSerializer` instance.  The
parse direction is irrelevant to every claim and is kept as a
parameter. -/
def JSONSerializer (deser : String → Except Exc Value) : Serializer :=
  ⟨jsonSerialize, deser⟩

/-- An inbound HTTP request, by the parts the dispatch engine reads:
the raw verb (`request.method`), the result of `await request_body()`
(which may itself raise), and the result of `request_args()`. -/
structure Request : Type where
  method : String
  body : Except Exc (Option String)
  req_args : List (String × Value)

/-- `ResourceOptions` (`self._meta`), by the attributes dispatch reads:
the two per-shape allow-lists, the serializer and the authenticator.
The authenticator is modelled by its only used method,
`is_authenticated(request) -> bool`. -/
structure Meta : Type where
  allowed_list : List String
  allowed_detail : List String
  serializer : Serializer
  authentication : Request → Bool

/-- The class-level attributes of a concrete resource that the
serialization paths read: `_meta`, `api_name`, `resource_name` (both
looked up with `getattr(..., None)`, hence optional) and the primary-key
field name `self.pk`. -/
structure ResourceClass : Type where
  meta : Meta
  api_name : Option String
  resource_name : Option String
  pk : String

/-- An HTTP response as handed to `build_response`: an optional body and
a status code.  Modelled from the spec: the response-builder contract is
`build(body, status) -> response`; the concrete builder lives in the
framework glue outside the given sources. -/
structure Response : Type where
  body : Option String
  status : Nat
deriving DecidableEq

/-- `Resource.build_response` contract: pair the body with the status. -/
def build_response (data : Option String) (status : Nat) : Response :=
  ⟨data, status⟩

/-- Python `str(x)` for the `getattr(cls, ..., None)` results used by
`get_resource_uri` string formatting. -/
def optStr : Option String → String
  | some s => s
  | none => "None"

/-- `Resource.get_resource_uri`:
`'/{}/{}/'.format(api_name, resource_name)`. -/
def get_resource_uri (rc : ResourceClass) : String :=
  "/" ++ optStr rc.api_name ++ "/" ++ optStr rc.resource_name ++ "/"

/-- `Resource.http_methods`: the per-endpoint-shape verb table mapping
an HTTP verb to the logical action name. -/
def http_methods (endpoint method : String) : Option String :=
  if endpoint = "list" then
    if method = "GET" then some "list"
    else if method = "POST" then some "create"
    else if method = "PUT" then some "update_list"
    else if method = "PATCH" then some "modify_list"
    else if method = "DELETE" then some "delete_list"
    else none
  else if endpoint = "detail" then
    if method = "GET" then some "detail"
    else if method = "POST" then some "create_detail"
    else if method = "PUT" then some "update"
    else if method = "PATCH" then some "modify"
    else if method = "DELETE" then some "delete"
    else none
  else none

/-- `Resource.status_map`: action name to success status code.  The
status constants (`OK`, `CREATED`, `ACCEPTED`, `NO_CONTENT`) come from
`tbone/resources/http.py`; modelled from the spec as 200, 201, 202, 204. -/
def status_map (action : String) : Option Nat :=
  if action = "list" then some 200
  else if action = "detail" then some 200
  else if action = "create" then some 201
  else if action = "update" then some 202
  else if action = "delete" then some 204
  else if action = "update_list" then some 202
  else if action = "create_detail" then some 201
  else if action = "delete_list" then some 204
  else none

/-- Python `str.upper()` (exact on the ASCII verbs the engine handles),
character by character. -/
def pyUpper (s : String) : String :=
  ⟨s.data.map Char.toUpper⟩

/-- Python `str.lower()` (exact on the ASCII verbs the engine handles),
character by character. -/
def pyLower (s : String) : String :=
  ⟨s.data.map Char.toLower⟩

/-- `Resource.request_method`: `self.request.method.upper()`. -/
def request_method (req : Request) : String :=
  pyUpper req.method

/-- `Resource.is_method_allowed`: test the lower-cased verb against the
allow-list of the endpoint shape. -/
def is_method_allowed (meta : Meta) (endpoint method : String) : Bool :=
  if endpoint = "list" then meta.allowed_list.contains (pyLower method)
  else if endpoint = "detail" then meta.allowed_detail.contains (pyLower method)
  else false

/-- The message `"Unsupported method '{0}' for {1} endpoint."`. -/
def unsupportedMsg (method endpoint : String) : String :=
  "Unsupported method \x27" ++ method ++ "\x27 for " ++ endpoint ++ " endpoint."

/-- `Resource.deserialize_list`: a truthy body goes to the serializer,
otherwise the empty list. -/
def deserialize_list (ser : Serializer) (body : Option String) : Except Exc Value :=
  match body with
  | some b => if b = "" then .ok (.arr []) else ser.deserialize b
  | none => .ok (.arr [])

/-- `Resource.deserialize_detail`: a truthy body goes to the serializer,
otherwise the empty dict. -/
def deserialize_detail (ser : Serializer) (body : Option String) : Except Exc Value :=
  match body with
  | some b => if b = "" then .ok (.obj []) else ser.deserialize b
  | none => .ok (.obj [])

/-- `Resource.deserialize`: route to the list or detail variant. -/
def deserialize (ser : Serializer) (method endpoint : String) (body : Option String) :
    Except Exc Value :=
  if endpoint = "list" then deserialize_list ser body else deserialize_detail ser body

/-- The per-item body of the loop in `Resource.serialize_list`:
`item['resource_uri'] = '{}{}/'.format(self.get_resource_uri(), item[self.pk])`.
A missing primary key raises `KeyError`; a non-dict item raises
`TypeError`. -/
def inject_uri (rc : ResourceClass) : Value → Except Exc Value
  | .obj f =>
      match getKey f rc.pk with
      | some v =>
          .ok (.obj (setKey f "resource_uri"
            (.str (get_resource_uri rc ++ pyStr v ++ "/"))))
      | none => .error (.keyError rc.pk)
  | _ => .error .typeError

/-- `Resource.serialize_list`: `None` serializes to the empty string;
otherwise every item of `data['objects']` receives its `resource_uri`
and the updated structure goes to the serializer. -/
def serialize_list (rc : ResourceClass) (data : Value) : Except Exc String :=
  match data with
  | .pyNone => .ok ""
  | .obj fields =>
      match getKey fields "objects" with
      | some (.arr items) => do
          let items2 ← items.mapM (inject_uri rc)
          rc.meta.serializer.serialize (.obj (setKey fields "objects" (.arr items2)))
      | some _ => .error .typeError
      | none => .error (.keyError "objects")
  | _ => .error .typeError

/-- `Resource.get_resource_data`: copy the dict entry by entry in
iteration order. -/
def get_resource_data (fields : List (String × Value)) : List (String × Value) :=
  fields.foldl (fun acc kv => setKey acc kv.1 kv.2) []

/-- `Resource.serialize_detail`: `None` serializes to the empty string;
otherwise `resource_uri` is set on the object (reading `data[self.pk]`
first, so a missing key raises `KeyError`) and the copied dict goes to
the serializer. -/
def serialize_detail (rc : ResourceClass) (data : Value) : Except Exc String :=
  match data with
  | .pyNone => .ok ""
  | .obj fields =>
      match getKey fields rc.pk with
      | some v =>
          rc.meta.serializer.serialize
            (.obj (get_resource_data (setKey fields "resource_uri"
              (.str (get_resource_uri rc ++ pyStr v ++ "/")))))
      | none => .error (.keyError rc.pk)
  | _ => .error .typeError

/-- `Resource.serialize`: `GET` with an absent result raises `NotFound`;
a `list` endpoint serializes as a detail object for `POST` and as a list
otherwise; any other endpoint serializes as a detail object. -/
def serialize (rc : ResourceClass) (method endpoint : String) (data : Value) :
    Except Exc String :=
  if Value.isNone data = true ∧ method = "GET" then .error .notFound
  else if endpoint = "list" then
    if method = "POST" then serialize_detail rc data else serialize_list rc data
  else serialize_detail rc data

/-- The argument-merge step of `Resource.dispatch`:
`kwargs.update(self.request_args())`.  Note the direction: entries of
`request_args()` are assigned INTO the route kwargs, so on a shared key
the request-derived value overwrites the route-resolved one. -/
def merge_args (kwargs req_args : List (String × Value)) : List (String × Value) :=
  updateKeys kwargs req_args

/-- `Resource.dispatch_error`: try to serialize `{'error': err.args}`;
if that raises, serialize `{'error': str(err)}` instead (this second
attempt is outside any handler, so its failure propagates); the status
is `getattr(err, 'status', 500)`. -/
def dispatch_error (ser : Serializer) (err : Exc) : Except Exc Response :=
  match ser.serialize (.obj [("error", .arr err.args)]) with
  | .ok body => .ok (build_response (some body) (err.status.getD 500))
  | .error _ =>
      match ser.serialize (.obj [("error", .str (excStr err))]) with
      | .ok body => .ok (build_response (some body) (err.status.getD 500))
      | .error e => .error e

/-- The `try` block of `Resource.dispatch`: verb-table check, allow-list
check, authentication check, body read, deserialization, argument merge,
action invocation and result serialization, each step propagating its
exception.  `view` stands for `getattr(self, action)` on the concrete
resource: it receives the action name, the positional route args and the
merged keyword args, and returns the action result or raises.  The
`getD ""` lookup replays `self.http_methods[endpoint][method]` at a
point where the earlier guard has established the key is present. -/
def dispatch_attempt (rc : ResourceClass)
    (view : String → List Value → List (String × Value) → Except Exc Value)
    (req : Request) (endpoint : String) (args : List Value)
    (kwargs : List (String × Value)) : Except Exc String :=
  let method := request_method req
  do
    if (http_methods endpoint method).isNone then
      throw (Exc.methodNotImplemented (unsupportedMsg method endpoint))
    if is_method_allowed rc.meta endpoint method = false then
      throw (Exc.methodNotAllowed (unsupportedMsg method endpoint))
    if rc.meta.authentication req = false then
      throw Exc.unauthorized
    let body ← req.body
    let _data ← deserialize rc.meta.serializer method endpoint body
    let action := (http_methods endpoint method).getD ""
    let data ← view action args (merge_args kwargs req.req_args)
    serialize rc method endpoint data

/-- `Resource.dispatch`: the `OPTIONS` preflight short-circuit, then the
`try` block, whose exception (if any) is routed to `dispatch_error` and
whose success is paired with the action's mapped status code. -/
def dispatch (rc : ResourceClass)
    (view : String → List Value → List (String × Value) → Except Exc Value)
    (req : Request) (endpoint : String) (args : List Value)
    (kwargs : List (String × Value)) : Except Exc Response :=
  let method := request_method req
  if method = "OPTIONS" then .ok (build_response none 204)
  else
    match dispatch_attempt rc view req endpoint args kwargs with
    | .ok serialized =>
        .ok (build_response (some serialized)
          ((status_map ((http_methods endpoint method).getD "")).getD 200))
    | .error ex => dispatch_error rc.meta.serializer ex

/-- Python `name.startswith(pre)`, character by character. -/
def strStartsWith (s pre : String) : Bool :=
  pre.data.isPrefixOf s.data

/-- A class-body member as `FieldMeta.__new__` inspects it: whether it
is callable, plus a numeric identity distinguishing distinct function
objects (so an override is a different member with the same name). -/
structure Member : Type where
  callable : Bool
  id : Nat
deriving DecidableEq

/-- The validator-collection part of `FieldMeta.__new__`: start from an
empty ordered mapping, `update` it with `base._validators` for each base
in `reversed(bases)`, then assign every callable `validate_`-prefixed
member of the class body.  A base class is represented by its already
accumulated `_validators` mapping, the class body by its ordered member
list. -/
def fieldMetaValidators (baseValidators : List (List (String × Nat)))
    (attrs : List (String × Member)) : List (String × Nat) :=
  let fromBases := baseValidators.reverse.foldl (fun acc base => updateKeys acc base) []
  attrs.foldl
    (fun acc nm =>
      if strStartsWith nm.1 "validate_" && nm.2.callable then setKey acc nm.1 nm.2.id
      else acc)
    fromBases

/-- The `_validators` mapping of the last class of a single-inheritance
chain, root first: each class is built by `FieldMeta` with the previous
class as its only base.  The empty start models `object`, which carries
no `_validators` (and `BaseField` itself declares no validators). -/
def chainValidators (chain : List (List (String × Member))) : List (String × Nat) :=
  chain.foldl (fun vs attrs => fieldMetaValidators [vs] attrs) []

/-- `getattr(self, name)` on an instance of the last class of the chain:
search the class bodies most-derived first and return the first member
of that name. -/
def getattrChain (chain : List (List (String × Member))) (name : String) : Option Nat :=
  (chain.reverse.findSome? (fun attrs => getKey attrs name)).map Member.id

/-- The `self.validators` list built by `BaseField.__init__`:
`[getattr(self, name) for name in self._validators]` followed by every
callable of the explicitly passed `validators` list. -/
def baseFieldValidators (chain : List (List (String × Member)))
    (ctorValidators : List Member) : List (Option Nat) :=
  (chainValidators chain).map (fun nv => getattrChain chain nv.1)
    ++ (ctorValidators.filter (fun m => m.callable)).map (fun m => some m.id)

/-- The validator-shaped members of one class body: name starts with
`validate_` and the member is callable, in definition order. -/
def attrsValidatorMembers (attrs : List (String × Member)) : List (String × Nat) :=
  (attrs.filter (fun nm => strStartsWith nm.1 "validate_" && nm.2.callable)).map
    (fun nm => (nm.1, nm.2.id))

/-- All validator-shaped members of a hierarchy, most distant ancestor
first, each class body in definition order. -/
def validatorMembers (chain : List (List (String × Member))) : List (String × Nat) :=
  (chain.map attrsValidatorMembers).flatten

/-- A `BaseField` instance, by the attributes the descriptor code
touches: `name` (set only by `add_to_class`, so `None` until the field
is bound) and `_bound`. -/
structure Field : Type where
  name : Option String
  bound : Bool

/-- `BaseField.__init__` leaves `self.name` unset and `_bound` false. -/
def baseFieldInit : Field :=
  ⟨none, false⟩

/-- A `FieldDescriptor` instance: `__init__` stores only `self.field`;
no `name` attribute is ever assigned on the descriptor itself. -/
structure FieldDescriptor : Type where
  field : Field
  name : Option String

/-- `FieldDescriptor.__init__`. -/
def fieldDescriptorInit (f : Field) : FieldDescriptor :=
  ⟨f, none⟩

/-- `BaseField.add_to_class`: set the field's `name`, mark it bound, and
install a `FieldDescriptor` wrapping the updated field on the model
class.  Returns the updated field and the installed descriptor. -/
def add_to_class (f : Field) (name : String) : Field × FieldDescriptor :=
  let f2 : Field := { f with name := some name, bound := true }
  (f2, fieldDescriptorInit f2)

/-- What an attribute read through the descriptor produces: a data value
(instance access) or the field object itself (class access). -/
inductive GetResult : Type where
  | value (v : Value)
  | fieldObj (f : Field)

/-- `FieldDescriptor.__get__`: with no instance, return the field
object; with an instance, `instance._data.get(self.field.name)`, where
`dict.get` yields `None` for a missing key.  An unbound field's `name`
is Python `None`, never a key of the string-keyed `_data`. -/
def fieldDescriptorGet (d : FieldDescriptor)
    (inst : Option (List (String × Value))) : GetResult :=
  match inst with
  | some data =>
      match d.field.name with
      | some n => .value ((getKey data n).getD .pyNone)
      | none => .value .pyNone
  | none => .fieldObj d.field

/-- `FieldDescriptor.__delete__`: `del instance._data[self.name]` reads
`self.name` on the DESCRIPTOR (not on `self.field`), raising
`AttributeError` when that attribute was never assigned; otherwise the
`del` removes the key or raises `KeyError`.  Returns the outcome
together with the (possibly updated) `_data` store. -/
def fieldDescriptorDelete (d : FieldDescriptor) (data : List (String × Value)) :
    Except Exc Unit × List (String × Value) :=
  match d.name with
  | none =>
      (.error (.attributeError
        ("\x27FieldDescriptor\x27 object has no attribute \x27name\x27")), data)
  | some n =>
      if (getKey data n).isSome then (.ok (), data.filter (fun kv => kv.1 != n))
      else (.error (.keyError n), data)

/-- Statement-side companion of `inject_uri` (total): the item with its
`resource_uri` entry filled in from the resource's base URI and the
item's primary-key value. -/
def spec_inject_uri (rc : ResourceClass) : Value → Value
  | .obj f =>
      .obj (setKey f "resource_uri"
        (.str (get_resource_uri rc ++ pyStr ((getKey f rc.pk).getD .pyNone) ++ "/")))
  | v => v

/-! ## Theorems -/

/-- Claim C5: a request whose verb is `OPTIONS` makes dispatch
short-circuit to a `204 No Content` response with empty body, for every
resource configuration, endpoint shape, view, route argument set and
request — in particular without consulting the verb table or the
allow-list, without invoking the authenticator (the statement quantifies
over arbitrary authenticators) and without reading the request body (the
body field of the request may even be a raised exception). -/
theorem C5_options_preflight (rc : ResourceClass)
    (view : String → List Value → List (String × Value) → Except Exc Value)
    (req : Request) (endpoint : String) (args : List Value)
    (kwargs : List (String × Value)) (h : request_method req = "OPTIONS") :
    dispatch rc view req endpoint args kwargs = .ok (build_response none 204) := by
  simp [dispatch, h]

/-- Witness for C5 at a concrete input: mixed-case verb, failing body,
rejecting authenticator, empty allow-lists. -/
theorem C5_options_preflight_witness :
    request_method ⟨"OpTiOnS", .error .typeError, []⟩ = "OPTIONS" ∧
    dispatch ⟨⟨[], [], JSONSerializer (fun _ => .error .typeError), fun _ => false⟩,
        none, none, "id"⟩ (fun _ _ _ => .error .typeError)
      ⟨"OpTiOnS", .error .typeError, []⟩ "list" [] [] = .ok (build_response none 204) :=
  ⟨by decide, C5_options_preflight _ _ _ _ _ _ (by decide)⟩

/-- Claim C1: for every non-OPTIONS dispatch, (1) a verb absent from the
endpoint shape's verb table fails with `MethodNotImplemented` carrying
status 501; (2) a verb present in the table whose lower-cased form the
shape's allow-list does not contain fails with `MethodNotAllowed`
carrying status 405 (the last two conjuncts identify the allow-list
check with membership of the lower-cased verb in `allowed_list` /
`allowed_detail`); (3) a present and allowed verb with a rejecting
authenticator fails with `Unauthorized` carrying status 401.  Each
conclusion holds for every request body value — even a body whose read
raises — so all three checks happen before the body is read, and each
later check's hypothesis includes the earlier checks passing, giving
exactly the claimed order. -/
theorem C1_precheck_order (rc : ResourceClass)
    (view : String → List Value → List (String × Value) → Except Exc Value)
    (req : Request) (endpoint : String) (args : List Value)
    (kwargs : List (String × Value)) (hopt : request_method req ≠ "OPTIONS") :
    (http_methods endpoint (request_method req) = none →
      dispatch rc view req endpoint args kwargs
        = dispatch_error rc.meta.serializer
            (.methodNotImplemented (unsupportedMsg (request_method req) endpoint))
      ∧ Exc.status (.methodNotImplemented (unsupportedMsg (request_method req) endpoint))
          = some 501) ∧
    ((http_methods endpoint (request_method req)).isSome = true →
      is_method_allowed rc.meta endpoint (request_method req) = false →
      dispatch rc view req endpoint args kwargs
        = dispatch_error rc.meta.serializer
            (.methodNotAllowed (unsupportedMsg (request_method req) endpoint))
      ∧ Exc.status (.methodNotAllowed (unsupportedMsg (request_method req) endpoint))
          = some 405) ∧
    ((http_methods endpoint (request_method req)).isSome = true →
      is_method_allowed rc.meta endpoint (request_method req) = true →
      rc.meta.authentication req = false →
      dispatch rc view req endpoint args kwargs
        = dispatch_error rc.meta.serializer .unauthorized
      ∧ Exc.status .unauthorized = some 401) ∧
    (∀ m : String,
      is_method_allowed rc.meta "list" m = rc.meta.allowed_list.contains (pyLower m)) ∧
    (∀ m : String,
      is_method_allowed rc.meta "detail" m = rc.meta.allowed_detail.contains (pyLower m)) := by
  refine ⟨fun h1 => ⟨?_, rfl⟩, fun h1 h2 => ⟨?_, rfl⟩, fun h1 h2 h3 => ⟨?_, rfl⟩,
    fun m => rfl, fun m => rfl⟩
  · simp only [dispatch, dispatch_attempt, hopt, h1]
    rfl
  · obtain ⟨a, ha⟩ := Option.isSome_iff_exists.mp h1
    simp only [dispatch, dispatch_attempt, hopt, ha, h2]
    rfl
  · obtain ⟨a, ha⟩ := Option.isSome_iff_exists.mp h1
    simp only [dispatch, dispatch_attempt, hopt, ha, h2, h3]
    rfl

/-- Witness for C1 at concrete inputs: a `TRACE` verb misses the `list`
verb table (501); a `POST` verb with allow-list `["get"]` is present in
the table but disallowed (405); a `GET` verb, present and allowed, with
a rejecting authenticator (401). -/
theorem C1_precheck_order_witness :
    (dispatch ⟨⟨["get"], ["get"], JSONSerializer (fun _ => .error .typeError),
        fun _ => false⟩, none, none, "id"⟩ (fun _ _ _ => .ok .pyNone)
      ⟨"trace", .error .typeError, []⟩ "list" [] []
        = dispatch_error (JSONSerializer (fun _ => .error .typeError))
            (.methodNotImplemented (unsupportedMsg "TRACE" "list"))) ∧
    (dispatch ⟨⟨["get"], ["get"], JSONSerializer (fun _ => .error .typeError),
        fun _ => false⟩, none, none, "id"⟩ (fun _ _ _ => .ok .pyNone)
      ⟨"post", .error .typeError, []⟩ "list" [] []
        = dispatch_error (JSONSerializer (fun _ => .error .typeError))
            (.methodNotAllowed (unsupportedMsg "POST" "list"))) ∧
    (dispatch ⟨⟨["get"], ["get"], JSONSerializer (fun _ => .error .typeError),
        fun _ => false⟩, none, none, "id"⟩ (fun _ _ _ => .ok .pyNone)
      ⟨"get", .error .typeError, []⟩ "list" [] []
        = dispatch_error (JSONSerializer (fun _ => .error .typeError)) .unauthorized) :=
  ⟨((C1_precheck_order _ _ _ _ _ _ (by decide)).1 (by decide)).1,
   ((C1_precheck_order _ _ _ _ _ _ (by decide)).2.1 (by decide) (by decide)).1,
   ((C1_precheck_order _ _ _ _ _ _ (by decide)).2.2.1 (by decide) (by decide) rfl).1⟩

/-- Claim C4: with the default JSON serializer, (1) every exception
reaching the dispatch boundary is converted to a response whose body is
the serialized `{"error": [exception args]}` shape — falling back to
`{"error": str(exception)}` when serializing that shape fails — and
whose status is the exception's `status` attribute when present and 500
otherwise; and (2) dispatch always produces a response: for every
configuration, view, request and endpoint it returns `Except.ok`, so no
exception raised between method resolution and result serialization
propagates out of dispatch. -/
theorem C4_error_boundary :
    (∀ (deser : String → Except Exc Value) (err : Exc),
      dispatch_error (JSONSerializer deser) err
        = .ok (build_response
            (some (if jsonOk (.obj [("error", .arr (Exc.args err))])
              then render (.obj [("error", .arr (Exc.args err))])
              else render (.obj [("error", .str (excStr err))])))
            ((Exc.status err).getD 500))) ∧
    (∀ (al ad : List String) (deser : String → Except Exc Value)
        (auth : Request → Bool) (api rn : Option String) (pk : String)
        (view : String → List Value → List (String × Value) → Except Exc Value)
        (req : Request) (endpoint : String) (args : List Value)
        (kwargs : List (String × Value)),
      ∃ resp : Response,
        dispatch ⟨⟨al, ad, JSONSerializer deser, auth⟩, api, rn, pk⟩
          view req endpoint args kwargs = .ok resp) := by
  have hshape : ∀ (deser : String → Except Exc Value) (err : Exc),
      dispatch_error (JSONSerializer deser) err
        = .ok (build_response
            (some (if jsonOk (.obj [("error", .arr (Exc.args err))])
              then render (.obj [("error", .arr (Exc.args err))])
              else render (.obj [("error", .str (excStr err))])))
            ((Exc.status err).getD 500)) := by
    intro deser err
    by_cases h : jsonOk (.obj [("error", .arr (Exc.args err))]) = true
    · simp [dispatch_error, JSONSerializer, jsonSerialize, h]
    · have h2 : jsonOk (.obj [("error", .str (excStr err))]) = true := by
        simp [jsonOk, jsonOkFields]
      simp [dispatch_error, JSONSerializer, jsonSerialize, h, h2]
  refine ⟨hshape, ?_⟩
  intro al ad deser auth api rn pk view req endpoint args kwargs
  by_cases hopt : request_method req = "OPTIONS"
  · exact ⟨build_response none 204, by simp [dispatch, hopt]⟩
  · rcases hA : dispatch_attempt ⟨⟨al, ad, JSONSerializer deser, auth⟩, api, rn, pk⟩
        view req endpoint args kwargs with ex | s
    · refine ⟨build_response
          (some (if jsonOk (.obj [("error", .arr (Exc.args ex))])
            then render (.obj [("error", .arr (Exc.args ex))])
            else render (.obj [("error", .str (excStr ex))])))
          ((Exc.status ex).getD 500), ?_⟩
      simp only [dispatch, hopt, hA, if_neg]
      exact hshape deser ex
    · refine ⟨build_response (some s)
        ((status_map ((http_methods endpoint (request_method req)).getD "")).getD 200), ?_⟩
      simp [dispatch, hopt, hA]

/-- A value is `None` exactly when it is the `pyNone` constructor. -/
theorem Value.isNone_iff (v : Value) : Value.isNone v = true ↔ v = .pyNone := by
  cases v <;> simp [Value.isNone]

/-- Bind over a known-successful `Except` computation. -/
theorem exc_bind_ok {α β : Type} (x : Except Exc α) (a : α) (f : α → Except Exc β)
    (h : x = .ok a) : (x >>= f) = f a := by
  rw [h]; rfl

/-- With the three pre-checks passing, the `try` block is the body read,
the deserialization, the action call on the merged arguments and the
serialization, chained by exception propagation. -/
theorem dispatch_attempt_eq (rc : ResourceClass)
    (view : String → List Value → List (String × Value) → Except Exc Value)
    (req : Request) (endpoint : String) (args : List Value)
    (kwargs : List (String × Value)) (action : String)
    (ha : http_methods endpoint (request_method req) = some action)
    (hallow : is_method_allowed rc.meta endpoint (request_method req) = true)
    (hauth : rc.meta.authentication req = true) :
    dispatch_attempt rc view req endpoint args kwargs
      = req.body >>= fun body =>
        deserialize rc.meta.serializer (request_method req) endpoint body >>= fun _ =>
        view action args (merge_args kwargs req.req_args) >>= fun data =>
        serialize rc (request_method req) endpoint data := by
  simp only [dispatch_attempt, ha, hallow, hauth]
  rfl

/-- A failing `try` block routes dispatch to `dispatch_error`. -/
theorem dispatch_eq_of_error (rc : ResourceClass)
    (view : String → List Value → List (String × Value) → Except Exc Value)
    (req : Request) (endpoint : String) (args : List Value)
    (kwargs : List (String × Value)) (ex : Exc)
    (hopt : request_method req ≠ "OPTIONS")
    (hA : dispatch_attempt rc view req endpoint args kwargs = .error ex) :
    dispatch rc view req endpoint args kwargs = dispatch_error rc.meta.serializer ex := by
  simp [dispatch, hopt, hA]

/-- A successful `try` block makes dispatch build the success response
with the action's mapped status. -/
theorem dispatch_eq_of_ok (rc : ResourceClass)
    (view : String → List Value → List (String × Value) → Except Exc Value)
    (req : Request) (endpoint : String) (args : List Value)
    (kwargs : List (String × Value)) (s : String)
    (hopt : request_method req ≠ "OPTIONS")
    (hA : dispatch_attempt rc view req endpoint args kwargs = .ok s) :
    dispatch rc view req endpoint args kwargs
      = .ok (build_response (some s)
          ((status_map ((http_methods endpoint (request_method req)).getD "")).getD 200)) := by
  simp [dispatch, hopt, hA]

/-- Claim C6: (1) serializing an absent (`None`) result of a `GET`
raises `NotFound` on either endpoint shape; (2) `NotFound` carries
status 404; (3) at dispatch level, a `GET` passing all pre-checks whose
action returns `None` is routed to the error boundary with `NotFound`,
yielding the 404 error response; (4) for any non-`GET` verb an absent
result does not raise `NotFound` — it serializes to the empty string. -/
theorem C6_get_not_found :
    (∀ (rc : ResourceClass) (endpoint : String),
      serialize rc "GET" endpoint .pyNone = .error .notFound) ∧
    Exc.status .notFound = some 404 ∧
    (∀ (rc : ResourceClass)
        (view : String → List Value → List (String × Value) → Except Exc Value)
        (req : Request) (endpoint : String) (args : List Value)
        (kwargs : List (String × Value)) (action : String) (b : Option String)
        (d : Value),
      request_method req = "GET" →
      http_methods endpoint "GET" = some action →
      is_method_allowed rc.meta endpoint "GET" = true →
      rc.meta.authentication req = true →
      req.body = .ok b →
      deserialize rc.meta.serializer "GET" endpoint b = .ok d →
      view action args (merge_args kwargs req.req_args) = .ok .pyNone →
      dispatch rc view req endpoint args kwargs
        = dispatch_error rc.meta.serializer .notFound) ∧
    (∀ (rc : ResourceClass) (method endpoint : String) (data : Value),
      method ≠ "GET" → Value.isNone data = true →
      serialize rc method endpoint data = .ok "") := by
  refine ⟨fun rc endpoint => rfl, rfl, ?_, ?_⟩
  · intro rc view req endpoint args kwargs action b d hm ha hallow hauth hbody hdeser hview
    have hA : dispatch_attempt rc view req endpoint args kwargs = .error .notFound := by
      rw [dispatch_attempt_eq rc view req endpoint args kwargs action
        (by rw [hm]; exact ha) (by rw [hm]; exact hallow) hauth]
      rw [exc_bind_ok _ _ _ hbody, hm, exc_bind_ok _ _ _ hdeser, exc_bind_ok _ _ _ hview]
      rfl
    exact dispatch_eq_of_error rc view req endpoint args kwargs _
      (by rw [hm]; decide) hA
  · intro rc method endpoint data hm hnone
    rw [(Value.isNone_iff data).mp hnone]
    simp only [serialize]
    rw [if_neg (by simp [Value.isNone, hm])]
    by_cases he : endpoint = "list"
    · rw [if_pos he]
      by_cases hp : method = "POST"
      · rw [if_pos hp]; rfl
      · rw [if_neg hp]; rfl
    · rw [if_neg he]; rfl

/-- Witness for C6 at concrete inputs: the serialize-level 404, a full
concrete dispatch of a `GET` whose action returns `None`, and a
`DELETE` of an absent result serializing to the empty string. -/
theorem C6_get_not_found_witness :
    serialize ⟨⟨["get"], ["get"], JSONSerializer (fun _ => .error .typeError),
        fun _ => true⟩, some "api", some "books", "id"⟩ "GET" "detail" .pyNone
      = .error .notFound ∧
    dispatch ⟨⟨["get"], ["get"], JSONSerializer (fun _ => .error .typeError),
        fun _ => true⟩, some "api", some "books", "id"⟩
      (fun _ _ _ => .ok .pyNone) ⟨"get", .ok none, []⟩ "detail" [] []
      = dispatch_error (JSONSerializer (fun _ => .error .typeError)) .notFound ∧
    serialize ⟨⟨["get"], ["get"], JSONSerializer (fun _ => .error .typeError),
        fun _ => true⟩, some "api", some "books", "id"⟩ "DELETE" "list" .pyNone
      = .ok "" :=
  ⟨C6_get_not_found.1 _ "detail",
   C6_get_not_found.2.2.1 _ _ _ _ _ _ "detail" none (.obj []) (by decide) rfl rfl rfl
     rfl rfl rfl,
   C6_get_not_found.2.2.2 _ "DELETE" "list" .pyNone (by decide) rfl⟩

/-- Claim C7: (1) a `POST` to a `list` endpoint serializes its result as
a single detail object (`serialize_detail`), and (2) a full successful
dispatch of such a request carries status 201; (3) any other verb on a
`list` endpoint serializes the result as a list (`serialize_list`), and
(4) a `detail` endpoint always serializes the result as a single object
(in (3) and (4) excluding the `GET`-of-`None` case, which raises
`NotFound` instead of serializing and so never belongs to a successful
dispatch). -/
theorem C7_post_list_creates_detail :
    (∀ (rc : ResourceClass) (data : Value),
      serialize rc "POST" "list" data = serialize_detail rc data) ∧
    (∀ (rc : ResourceClass)
        (view : String → List Value → List (String × Value) → Except Exc Value)
        (req : Request) (args : List Value) (kwargs : List (String × Value))
        (b : Option String) (d data : Value) (s : String),
      request_method req = "POST" →
      is_method_allowed rc.meta "list" "POST" = true →
      rc.meta.authentication req = true →
      req.body = .ok b →
      deserialize rc.meta.serializer "POST" "list" b = .ok d →
      view "create" args (merge_args kwargs req.req_args) = .ok data →
      serialize_detail rc data = .ok s →
      dispatch rc view req "list" args kwargs = .ok (build_response (some s) 201)) ∧
    (∀ (rc : ResourceClass) (method : String) (data : Value),
      method ≠ "POST" → ¬(Value.isNone data = true ∧ method = "GET") →
      serialize rc method "list" data = serialize_list rc data) ∧
    (∀ (rc : ResourceClass) (method : String) (data : Value),
      ¬(Value.isNone data = true ∧ method = "GET") →
      serialize rc method "detail" data = serialize_detail rc data) := by
  have ha : ∀ (rc : ResourceClass) (data : Value),
      serialize rc "POST" "list" data = serialize_detail rc data := by
    intro rc data
    unfold serialize
    rw [if_neg (by rintro ⟨-, h⟩; exact absurd h (by decide))]
    rfl
  refine ⟨ha, ?_, ?_, ?_⟩
  · intro rc view req args kwargs b d data s hm hallow hauth hbody hdeser hview hser
    have hA : dispatch_attempt rc view req "list" args kwargs = .ok s := by
      rw [dispatch_attempt_eq rc view req "list" args kwargs "create"
        (by rw [hm]; rfl) (by rw [hm]; exact hallow) hauth]
      rw [exc_bind_ok _ _ _ hbody, hm, exc_bind_ok _ _ _ hdeser, exc_bind_ok _ _ _ hview,
        ha rc data]
      exact hser
    have h2 := dispatch_eq_of_ok rc view req "list" args kwargs s (by rw [hm]; decide) hA
    rw [hm] at h2
    exact h2
  · intro rc method data hp hneg
    unfold serialize
    rw [if_neg hneg]
    simp [hp]
  · intro rc method data hneg
    unfold serialize
    rw [if_neg hneg]
    rfl

/-- Witness for C7 at concrete inputs: the `POST`/`list` serialize
identity on a concrete object, a full concrete dispatch of a `POST` to a
`list` endpoint returning the created object with status 201, a `PUT` on
a `list` endpoint serializing as a list, and a `PUT` on a `detail`
endpoint serializing as a single object. -/
theorem C7_post_list_creates_detail_witness :
    serialize ⟨⟨["post"], ["post"], JSONSerializer (fun _ => .error .typeError),
        fun _ => true⟩, some "api", some "books", "id"⟩ "POST" "list"
        (.obj [("id", .str "7")])
      = serialize_detail ⟨⟨["post"], ["post"],
          JSONSerializer (fun _ => .error .typeError), fun _ => true⟩,
          some "api", some "books", "id"⟩ (.obj [("id", .str "7")]) ∧
    dispatch ⟨⟨["post"], ["post"], JSONSerializer (fun _ => .error .typeError),
        fun _ => true⟩, some "api", some "books", "id"⟩
      (fun _ _ _ => .ok (.obj [("id", .str "7")])) ⟨"post", .ok none, []⟩ "list" [] []
      = .ok (build_response
          (some "\x7b\"id\": \"7\", \"resource_uri\": \"/api/books/7/\"\x7d") 201) ∧
    serialize ⟨⟨["put"], ["put"], JSONSerializer (fun _ => .error .typeError),
        fun _ => true⟩, some "api", some "books", "id"⟩ "PUT" "list"
        (.obj [("objects", .arr [])])
      = serialize_list ⟨⟨["put"], ["put"],
          JSONSerializer (fun _ => .error .typeError), fun _ => true⟩,
          some "api", some "books", "id"⟩ (.obj [("objects", .arr [])]) ∧
    serialize ⟨⟨["put"], ["put"], JSONSerializer (fun _ => .error .typeError),
        fun _ => true⟩, some "api", some "books", "id"⟩ "PUT" "detail"
        (.obj [("id", .str "7")])
      = serialize_detail ⟨⟨["put"], ["put"],
          JSONSerializer (fun _ => .error .typeError), fun _ => true⟩,
          some "api", some "books", "id"⟩ (.obj [("id", .str "7")]) :=
  ⟨C7_post_list_creates_detail.1 _ _,
   C7_post_list_creates_detail.2.1 _ _ _ _ _ none (.arr []) (.obj [("id", .str "7")])
     "\x7b\"id\": \"7\", \"resource_uri\": \"/api/books/7/\"\x7d"
     (by decide) rfl rfl rfl rfl rfl rfl,
   C7_post_list_creates_detail.2.2.1 _ "PUT" _ (by decide)
     (by rintro ⟨h, -⟩; exact absurd h (by decide)),
   C7_post_list_creates_detail.2.2.2 _ "PUT" _
     (by rintro ⟨-, h⟩; exact absurd h (by decide))⟩

/-- Assignment under the assigned key reads back the assigned value. -/
theorem getKey_setKey_self {α : Type} (d : List (String × α)) (k : String) (v : α) :
    getKey (setKey d k v) k = some v := by
  induction d with
  | nil => simp [setKey, getKey]
  | cons kv rest ih =>
      by_cases h : kv.1 = k
      · simp [setKey, getKey, h]
      · simp [setKey, getKey, h, ih]

/-- Assignment under a different key leaves a read unchanged. -/
theorem getKey_setKey_other {α : Type} (d : List (String × α)) (k' k : String) (v : α)
    (h : k' ≠ k) : getKey (setKey d k' v) k = getKey d k := by
  induction d with
  | nil => simp [setKey, getKey, h]
  | cons kv rest ih =>
      by_cases hk : kv.1 = k'
      · simp [setKey, getKey, hk, h]
      · by_cases hk2 : kv.1 = k <;> simp [setKey, getKey, hk, hk2, ih, Ne.symm h]

/-- Updating with entries that all avoid a key leaves that key's read
unchanged. -/
theorem getKey_updateKeys_of_not_mem {α : Type} (e d : List (String × α)) (k : String)
    (h : ∀ kv ∈ e, kv.1 ≠ k) : getKey (updateKeys d e) k = getKey d k := by
  induction e generalizing d with
  | nil => rfl
  | cons kv rest ih =>
      have h1 : kv.1 ≠ k := h kv (List.mem_cons_self kv rest)
      have h2 : ∀ kv2 ∈ rest, kv2.1 ≠ k := fun kv2 hm => h kv2 (List.mem_cons_of_mem kv hm)
      calc getKey (updateKeys (setKey d kv.1 kv.2) rest) k
          = getKey (setKey d kv.1 kv.2) k := ih _ h2
        _ = getKey d k := getKey_setKey_other d kv.1 k kv.2 h1

/-- An entry present in the update source (with duplicate-free keys, as
a Python dict has) is present with that value after the update. -/
theorem getKey_updateKeys_of_mem {α : Type} (e d : List (String × α)) (k : String) (v : α)
    (hnd : (e.map Prod.fst).Nodup) (h : getKey e k = some v) :
    getKey (updateKeys d e) k = some v := by
  induction e generalizing d with
  | nil => simp [getKey] at h
  | cons kv rest ih =>
      rcases List.nodup_cons.mp hnd with ⟨hk, hrest⟩
      by_cases hh : kv.1 = k
      · have hv : v = kv.2 := by
          simp [getKey, hh] at h
          exact h.symm
        subst hv
        have hnone : ∀ kv2 ∈ rest, kv2.1 ≠ k := by
          intro kv2 hm he
          apply hk
          rw [hh, ← he]
          exact List.mem_map_of_mem Prod.fst hm
        calc getKey (updateKeys (setKey d kv.1 kv.2) rest) k
            = getKey (setKey d kv.1 kv.2) k := getKey_updateKeys_of_not_mem rest _ k hnone
          _ = some kv.2 := by rw [← hh]; exact getKey_setKey_self d kv.1 kv.2
      · have h2 : getKey rest k = some v := by
          simpa [getKey, hh] using h
        exact ih (setKey d kv.1 kv.2) hrest h2

/-- Counterexample to claim C3 as stated: with the route kwargs binding
`x` to `"route"` and `request_args()` binding `x` to `"request"`, the
dispatched action observes `x = "request"` — the body of the produced
response (the action echoes its merged kwargs through an error) renders
the request-derived value, and differs from the response of the run
where only the route binding exists.  So the route-resolved value does
NOT take precedence. -/
theorem C3_route_precedence_counterexample :
    dispatch ⟨⟨["get"], ["get"], JSONSerializer (fun _ => .error .typeError),
        fun _ => true⟩, some "api", some "books", "id"⟩
      (fun _ _ kw => .error (.appError [.obj kw] none))
      ⟨"get", .ok none, [("x", .str "request")]⟩ "detail" [] [("x", .str "route")]
      = .ok (build_response
          (some "\x7b\"error\": [\x7b\"x\": \"request\"\x7d]\x7d") 500) ∧
    dispatch ⟨⟨["get"], ["get"], JSONSerializer (fun _ => .error .typeError),
        fun _ => true⟩, some "api", some "books", "id"⟩
      (fun _ _ kw => .error (.appError [.obj kw] none))
      ⟨"get", .ok none, []⟩ "detail" [] [("x", .str "route")]
      = .ok (build_response
          (some "\x7b\"error\": [\x7b\"x\": \"route\"\x7d]\x7d") 500) ∧
    build_response (some "\x7b\"error\": [\x7b\"x\": \"request\"\x7d]\x7d") 500
      ≠ build_response (some "\x7b\"error\": [\x7b\"x\": \"route\"\x7d]\x7d") 500 :=
  ⟨rfl, rfl, by decide⟩

/-- Claim C3 (amended): in dispatch's argument merge
(`kwargs.update(request_args())`), when the same keyword argument is
supplied both by route resolution and by the request's arguments, the
REQUEST-derived value takes precedence in the merged keyword arguments:
(1) any key present in `request_args()` (a dict, hence duplicate-free
keys) reads back its request value from the merge, regardless of the
route kwargs; and (2) dispatch depends on the invoked view only through
its value at the merged kwargs `merge_args kwargs request_args`, so the
merged mapping of (1) is exactly what the action method receives. -/
theorem C3_request_args_take_precedence :
    (∀ (kwargs req_args : List (String × Value)) (k : String) (v : Value),
      (req_args.map Prod.fst).Nodup → getKey req_args k = some v →
      getKey (merge_args kwargs req_args) k = some v) ∧
    (∀ (rc : ResourceClass)
        (view view' : String → List Value → List (String × Value) → Except Exc Value)
        (req : Request) (endpoint : String) (args : List Value)
        (kwargs : List (String × Value)),
      (∀ action : String, view action args (merge_args kwargs req.req_args)
        = view' action args (merge_args kwargs req.req_args)) →
      dispatch rc view req endpoint args kwargs
        = dispatch rc view' req endpoint args kwargs) := by
  constructor
  · intro kwargs req_args k v hnd h
    exact getKey_updateKeys_of_mem req_args kwargs k v hnd h
  · intro rc view view' req endpoint args kwargs hv
    have hAtt : dispatch_attempt rc view req endpoint args kwargs
        = dispatch_attempt rc view' req endpoint args kwargs := by
      simp only [dispatch_attempt, hv]
    simp only [dispatch, hAtt]

/-- Witness for the amended C3 at concrete inputs: the request value
`"request"` wins over the route value `"route"` in the merge, and two
views agreeing on the merged kwargs give identical dispatches. -/
theorem C3_request_args_take_precedence_witness :
    getKey (merge_args [("x", .str "route")] [("x", .str "request")]) "x"
      = some (.str "request") ∧
    dispatch ⟨⟨["get"], ["get"], JSONSerializer (fun _ => .error .typeError),
        fun _ => true⟩, some "api", some "books", "id"⟩
      (fun _ _ kw => .error (.appError [.obj kw] none))
      ⟨"get", .ok none, [("x", .str "request")]⟩ "detail" [] [("x", .str "route")]
      = dispatch ⟨⟨["get"], ["get"], JSONSerializer (fun _ => .error .typeError),
          fun _ => true⟩, some "api", some "books", "id"⟩
        (fun _ _ _ => .error (.appError [.obj [("x", .str "request")]] none))
        ⟨"get", .ok none, [("x", .str "request")]⟩ "detail" [] [("x", .str "route")] :=
  ⟨C3_request_args_take_precedence.1 [("x", .str "route")] [("x", .str "request")]
      "x" (.str "request") (by decide) rfl,
   C3_request_args_take_precedence.2 _ _ _ _ "detail" [] [("x", .str "route")]
      (fun _ => rfl)⟩

/-- When every item is a dict carrying a string primary key, the
per-item URI injection of `serialize_list` succeeds on each item and
equals the statement-side `spec_inject_uri`. -/
theorem mapM_inject_uri (rc : ResourceClass) (items : List Value)
    (h : ∀ it ∈ items, ∃ f s, it = Value.obj f ∧ getKey f rc.pk = some (.str s)) :
    items.mapM (inject_uri rc) = .ok (items.map (spec_inject_uri rc)) := by
  induction items with
  | nil => rfl
  | cons it rest ih =>
      obtain ⟨f, s, hit, hpk⟩ := h it (List.mem_cons_self it rest)
      have hrest := fun it2 hm => h it2 (List.mem_cons_of_mem it hm)
      subst hit
      have h1 : inject_uri rc (.obj f) = .ok (spec_inject_uri rc (.obj f)) := by
        simp [inject_uri, spec_inject_uri, hpk, pyStr]
      rw [List.mapM_cons, h1, ih hrest]
      rfl

/-- Claim C8: (1) the resource base URI is `/{api_name}/{resource_name}/`;
(2) serializing a list response hands the serializer the data with every
item of `data['objects']` extended (in place) by a `resource_uri` entry;
(3) that entry is the base URI followed by the item's primary-key value
and a trailing slash, matching `/{api_name}/{resource_name}/{pk value}/`;
(4) serializing a detail response sets the same `resource_uri` on the
object itself before handing it (copied) to the serializer. -/
theorem C8_resource_uri_injection :
    (∀ (rc : ResourceClass) (api rn : String),
      rc.api_name = some api → rc.resource_name = some rn →
      get_resource_uri rc = "/" ++ api ++ "/" ++ rn ++ "/") ∧
    (∀ (rc : ResourceClass) (fields : List (String × Value)) (items : List Value),
      getKey fields "objects" = some (.arr items) →
      (∀ it ∈ items, ∃ f s, it = Value.obj f ∧ getKey f rc.pk = some (.str s)) →
      serialize_list rc (.obj fields)
        = rc.meta.serializer.serialize
            (.obj (setKey fields "objects" (.arr (items.map (spec_inject_uri rc)))))) ∧
    (∀ (rc : ResourceClass) (f : List (String × Value)) (s : String),
      getKey f rc.pk = some (.str s) →
      spec_inject_uri rc (.obj f)
        = .obj (setKey f "resource_uri" (.str (get_resource_uri rc ++ s ++ "/")))) ∧
    (∀ (rc : ResourceClass) (f : List (String × Value)) (s : String),
      getKey f rc.pk = some (.str s) →
      serialize_detail rc (.obj f)
        = rc.meta.serializer.serialize
            (.obj (get_resource_data (setKey f "resource_uri"
              (.str (get_resource_uri rc ++ s ++ "/")))))) := by
  refine ⟨?_, ?_, ?_, ?_⟩
  · intro rc api rn h1 h2
    simp [get_resource_uri, h1, h2, optStr]
  · intro rc fields items hobj h
    simp only [serialize_list]
    rw [hobj]
    show (items.mapM (inject_uri rc) >>= fun items2 =>
        rc.meta.serializer.serialize (.obj (setKey fields "objects" (.arr items2)))) = _
    rw [mapM_inject_uri rc items h]
    rfl
  · intro rc f s hpk
    simp [spec_inject_uri, hpk, pyStr]
  · intro rc f s hpk
    simp [serialize_detail, hpk, pyStr]

/-- Witness for C8 at concrete inputs: base URI `/api/books/`, a
two-item list whose items get `/api/books/1/` and `/api/books/2/`, the
per-item injection equation, and a concrete detail injection. -/
theorem C8_resource_uri_injection_witness :
    get_resource_uri ⟨⟨["get"], ["get"], JSONSerializer (fun _ => .error .typeError),
        fun _ => true⟩, some "api", some "books", "id"⟩ = "/api/books/" ∧
    serialize_list ⟨⟨["get"], ["get"], JSONSerializer (fun _ => .error .typeError),
        fun _ => true⟩, some "api", some "books", "id"⟩
      (.obj [("objects", .arr [.obj [("id", .str "1")], .obj [("id", .str "2")]])])
      = (JSONSerializer (fun _ => .error .typeError)).serialize
          (.obj (setKey [("objects", .arr [.obj [("id", .str "1")],
              .obj [("id", .str "2")]])] "objects"
            (.arr ([Value.obj [("id", .str "1")], Value.obj [("id", .str "2")]].map
              (spec_inject_uri ⟨⟨["get"], ["get"],
                JSONSerializer (fun _ => .error .typeError), fun _ => true⟩,
                some "api", some "books", "id"⟩))))) ∧
    spec_inject_uri ⟨⟨["get"], ["get"], JSONSerializer (fun _ => .error .typeError),
        fun _ => true⟩, some "api", some "books", "id"⟩ (.obj [("id", .str "1")])
      = .obj (setKey [("id", .str "1")] "resource_uri"
          (.str (get_resource_uri ⟨⟨["get"], ["get"],
            JSONSerializer (fun _ => .error .typeError), fun _ => true⟩,
            some "api", some "books", "id"⟩ ++ "1" ++ "/"))) ∧
    serialize_detail ⟨⟨["get"], ["get"], JSONSerializer (fun _ => .error .typeError),
        fun _ => true⟩, some "api", some "books", "id"⟩ (.obj [("id", .str "7")])
      = (JSONSerializer (fun _ => .error .typeError)).serialize
          (.obj (get_resource_data (setKey [("id", .str "7")] "resource_uri"
            (.str (get_resource_uri ⟨⟨["get"], ["get"],
              JSONSerializer (fun _ => .error .typeError), fun _ => true⟩,
              some "api", some "books", "id"⟩ ++ "7" ++ "/"))))) :=
  ⟨C8_resource_uri_injection.1 _ "api" "books" rfl rfl,
   C8_resource_uri_injection.2.1 _ _ [.obj [("id", .str "1")], .obj [("id", .str "2")]]
     rfl (by
       intro it hm
       rw [List.mem_cons] at hm
       rcases hm with h | hm2
       · exact ⟨[("id", .str "1")], "1", h, rfl⟩
       · rw [List.mem_cons] at hm2
         rcases hm2 with h | hm3
         · exact ⟨[("id", .str "2")], "2", h, rfl⟩
         · exact absurd hm3 (List.not_mem_nil it)),
   C8_resource_uri_injection.2.2.1 _ [("id", .str "1")] "1" rfl,
   C8_resource_uri_injection.2.2.2 _ [("id", .str "7")] "7" rfl⟩

/-- Claim C9: for a field bound to a model class by `add_to_class`,
reading the attribute on the class itself (no instance) returns the
field object, and reading it on an instance whose `_data` store has no
entry under the field's name returns `None` rather than raising. -/
theorem C9_descriptor_get (f : Field) (n : String) (data : List (String × Value)) :
    fieldDescriptorGet (add_to_class f n).2 none = .fieldObj (add_to_class f n).1 ∧
    (getKey data n = none →
      fieldDescriptorGet (add_to_class f n).2 (some data) = .value .pyNone) := by
  constructor
  · rfl
  · intro h
    simp [fieldDescriptorGet, add_to_class, fieldDescriptorInit, h]

/-- Witness for C9 at a concrete input: a fresh field bound as `title`,
an instance store holding only an unrelated key. -/
theorem C9_descriptor_get_witness :
    fieldDescriptorGet (add_to_class baseFieldInit "title").2 none
      = .fieldObj (add_to_class baseFieldInit "title").1 ∧
    fieldDescriptorGet (add_to_class baseFieldInit "title").2
      (some [("other", .str "x")]) = .value .pyNone :=
  ⟨(C9_descriptor_get baseFieldInit "title" [("other", .str "x")]).1,
   (C9_descriptor_get baseFieldInit "title" [("other", .str "x")]).2 rfl⟩

/-- Claim C10: deleting the bound attribute through the descriptor
always raises `AttributeError` — the delete hook reads `self.name` on
the descriptor, which `FieldDescriptor.__init__` never assigns and
`add_to_class` assigns only on the field — and the instance's `_data`
store is returned unchanged. -/
theorem C10_descriptor_delete (f : Field) (n : String) (data : List (String × Value)) :
    fieldDescriptorDelete (add_to_class f n).2 data
      = (.error (.attributeError
          ("\x27FieldDescriptor\x27 object has no attribute \x27name\x27")), data) :=
  rfl

/-- A key reads `none` exactly when it occurs nowhere in the map. -/
theorem getKey_eq_none_iff {α : Type} (d : List (String × α)) (k : String) :
    getKey d k = none ↔ k ∉ d.map Prod.fst := by
  induction d with
  | nil => simp [getKey]
  | cons kv rest ih =>
      by_cases h : kv.1 = k
      · simp [getKey, h]
      · simp [getKey, h, ih, Ne.symm h]

/-- In a map with duplicate-free keys, membership of an entry determines
the read. -/
theorem getKey_of_mem_nodup {α : Type} (d : List (String × α)) (k : String) (v : α)
    (hnd : (d.map Prod.fst).Nodup) (h : (k, v) ∈ d) : getKey d k = some v := by
  induction d with
  | nil => simp at h
  | cons kv rest ih =>
      rcases List.nodup_cons.mp hnd with ⟨hk, hrest⟩
      rcases List.mem_cons.mp h with h1 | h1
      · rw [← h1]
        simp [getKey]
      · have hne : kv.1 ≠ k := by
          intro he
          exact hk (he ▸ List.mem_map_of_mem Prod.fst h1)
        simp [getKey, hne, ih hrest h1]

/-- Assignment to a present key keeps the key sequence unchanged. -/
theorem setKey_map_fst_of_mem {α : Type} (d : List (String × α)) (k : String) (v : α)
    (h : k ∈ d.map Prod.fst) : (setKey d k v).map Prod.fst = d.map Prod.fst := by
  induction d with
  | nil => simp at h
  | cons kv rest ih =>
      by_cases hk : kv.1 = k
      · simp [setKey, hk]
      · have h2 : k ∈ rest.map Prod.fst := by
          rcases List.mem_cons.mp h with h1 | h1
          · exact absurd h1.symm hk
          · exact h1
        simp [setKey, hk, ih h2]

/-- Assignment to an absent key appends the entry at the end. -/
theorem setKey_of_not_mem {α : Type} (d : List (String × α)) (k : String) (v : α)
    (h : k ∉ d.map Prod.fst) : setKey d k v = d ++ [(k, v)] := by
  induction d with
  | nil => rfl
  | cons kv rest ih =>
      have hk : kv.1 ≠ k := fun he => h (he ▸ List.mem_map_of_mem Prod.fst
        (List.mem_cons_self kv rest))
      have h2 : k ∉ rest.map Prod.fst := fun hm => h (by simp [hm])
      simp [setKey, hk, ih h2]

/-- Every key after an assignment is an old key or the assigned key. -/
theorem mem_setKey_map_fst {α : Type} (d : List (String × α)) (k : String) (v : α)
    (k' : String) (h : k' ∈ (setKey d k v).map Prod.fst) :
    k' ∈ d.map Prod.fst ∨ k' = k := by
  induction d with
  | nil =>
      simp [setKey] at h
      exact Or.inr h
  | cons kv rest ih =>
      by_cases hk : kv.1 = k
      · rw [setKey, if_pos hk] at h
        simp only [List.map_cons] at h
        rcases List.mem_cons.mp h with h1 | h1
        · exact Or.inl (by simp [h1])
        · exact Or.inl (by
            simp only [List.map_cons, List.mem_cons]
            exact Or.inr h1)
      · rw [setKey, if_neg hk] at h
        simp only [List.map_cons] at h
        rcases List.mem_cons.mp h with h1 | h1
        · exact Or.inl (by simp [h1])
        · rcases ih h1 with h2 | h2
          · exact Or.inl (by
              simp only [List.map_cons, List.mem_cons]
              exact Or.inr h2)
          · exact Or.inr h2

/-- Assignment preserves duplicate-freedom of the key sequence. -/
theorem setKey_nodup {α : Type} (d : List (String × α)) (k : String) (v : α)
    (hnd : (d.map Prod.fst).Nodup) : ((setKey d k v).map Prod.fst).Nodup := by
  by_cases h : k ∈ d.map Prod.fst
  · rw [setKey_map_fst_of_mem d k v h]
    exact hnd
  · rw [setKey_of_not_mem d k v h]
    simp only [List.map_append, List.map_cons, List.map_nil]
    exact List.Nodup.append hnd (List.nodup_singleton k)
      (by simpa [List.disjoint_singleton] using h)

/-- Updating preserves duplicate-freedom of the key sequence. -/
theorem updateKeys_nodup {α : Type} (e d : List (String × α))
    (hnd : (d.map Prod.fst).Nodup) : ((updateKeys d e).map Prod.fst).Nodup := by
  induction e generalizing d with
  | nil => exact hnd
  | cons kv rest ih => exact ih (setKey d kv.1 kv.2) (setKey_nodup d kv.1 kv.2 hnd)

/-- Updating with entries whose keys are fresh and duplicate-free is a
plain append. -/
theorem updateKeys_eq_append {α : Type} (e d : List (String × α))
    (hnd : (e.map Prod.fst).Nodup) (hdis : ∀ k ∈ e.map Prod.fst, k ∉ d.map Prod.fst) :
    updateKeys d e = d ++ e := by
  induction e generalizing d with
  | nil => simp [updateKeys]
  | cons kv rest ih =>
      rcases List.nodup_cons.mp hnd with ⟨hk, hrest⟩
      have h1 : setKey d kv.1 kv.2 = d ++ [kv] := by
        rw [setKey_of_not_mem d kv.1 kv.2 (hdis kv.1 (by simp))]
      have h2 : ∀ k ∈ rest.map Prod.fst, k ∉ (d ++ [kv]).map Prod.fst := by
        intro k hm
        simp only [List.map_append, List.map_cons, List.map_nil, List.mem_append,
          List.mem_cons, List.not_mem_nil]
        rintro (hd | hs)
        · exact hdis k (by simp [hm]) hd
        · rcases hs with hs | hs
          · exact hk (hs ▸ hm)
          · exact hs
      calc updateKeys d (kv :: rest) = updateKeys (setKey d kv.1 kv.2) rest := rfl
        _ = updateKeys (d ++ [kv]) rest := by rw [h1]
        _ = (d ++ [kv]) ++ rest := ih (d ++ [kv]) hrest h2
        _ = d ++ kv :: rest := by simp

/-- Updating the empty map with a duplicate-free entry list gives back
that list. -/
theorem updateKeys_nil {α : Type} (e : List (String × α))
    (hnd : (e.map Prod.fst).Nodup) : updateKeys [] e = e := by
  simpa using updateKeys_eq_append e [] hnd (by simp)

/-- Updating by a concatenation is sequential updating. -/
theorem updateKeys_append {α : Type} (d e1 e2 : List (String × α)) :
    updateKeys d (e1 ++ e2) = updateKeys (updateKeys d e1) e2 :=
  List.foldl_append _ _ _ _

/-- A successful read exhibits its entry in the map. -/
theorem getKey_mem {α : Type} (d : List (String × α)) (k : String) (v : α)
    (h : getKey d k = some v) : (k, v) ∈ d := by
  induction d with
  | nil => simp [getKey] at h
  | cons kv rest ih =>
      by_cases he : kv.1 = k
      · have h2 : kv.2 = v := by simpa [getKey, he] using h
        exact List.mem_cons.mpr (Or.inl (by rw [← he, ← h2]))
      · exact List.mem_cons.mpr (Or.inr (ih (by simpa [getKey, he] using h)))

/-- The member scan of `FieldMeta.__new__` is the in-order keyed
insertion of the class body's validator-shaped members. -/
theorem attrs_foldl_eq (attrs : List (String × Member)) (base : List (String × Nat)) :
    attrs.foldl
      (fun acc nm =>
        if strStartsWith nm.1 "validate_" && nm.2.callable then setKey acc nm.1 nm.2.id
        else acc) base
      = updateKeys base (attrsValidatorMembers attrs) := by
  induction attrs generalizing base with
  | nil => rfl
  | cons nm rest ih =>
      by_cases h : (strStartsWith nm.1 "validate_" && nm.2.callable) = true
      · have hm : attrsValidatorMembers (nm :: rest)
            = (nm.1, nm.2.id) :: attrsValidatorMembers rest := by
          simp [attrsValidatorMembers, List.filter_cons, h]
        rw [List.foldl_cons, if_pos h, ih (setKey base nm.1 nm.2.id), hm]
        rfl
      · have hm : attrsValidatorMembers (nm :: rest) = attrsValidatorMembers rest := by
          simp [attrsValidatorMembers, List.filter_cons, h]
        rw [List.foldl_cons, if_neg h, ih base, hm]

/-- One metaclass step over a single base is updating the base's
accumulated mapping by the class body's validator members. -/
theorem fieldMetaValidators_single (vs : List (String × Nat))
    (attrs : List (String × Member)) :
    fieldMetaValidators [vs] attrs
      = updateKeys (updateKeys [] vs) (attrsValidatorMembers attrs) := by
  unfold fieldMetaValidators
  exact attrs_foldl_eq attrs _

/-- Extending a chain by one class applies one metaclass step. -/
theorem chainValidators_append (chain : List (List (String × Member)))
    (attrs : List (String × Member)) :
    chainValidators (chain ++ [attrs])
      = fieldMetaValidators [chainValidators chain] attrs := by
  unfold chainValidators
  rw [List.foldl_append]
  rfl

/-- The accumulated `_validators` mapping has duplicate-free keys. -/
theorem chainValidators_nodup (chain : List (List (String × Member))) :
    ((chainValidators chain).map Prod.fst).Nodup := by
  induction chain using List.reverseRecOn with
  | nil => simp [chainValidators]
  | append_singleton chain attrs ih =>
      rw [chainValidators_append, fieldMetaValidators_single]
      exact updateKeys_nodup _ _ (updateKeys_nodup _ [] (by simp))

/-- Collecting members of an extended chain appends the last class's
members. -/
theorem validatorMembers_append (chain : List (List (String × Member)))
    (attrs : List (String × Member)) :
    validatorMembers (chain ++ [attrs])
      = validatorMembers chain ++ attrsValidatorMembers attrs := by
  simp [validatorMembers]

/-- Conjunct (1) of claim C2 as a standalone equation: the accumulated
`_validators` mapping of a chain is the in-order keyed insertion of all
validator-shaped members, most distant ancestor first. -/
theorem chainValidators_eq (chain : List (List (String × Member))) :
    chainValidators chain = updateKeys [] (validatorMembers chain) := by
  induction chain using List.reverseRecOn with
  | nil => rfl
  | append_singleton chain attrs ih =>
      rw [chainValidators_append, fieldMetaValidators_single,
        updateKeys_nil (chainValidators chain) (chainValidators_nodup chain), ih,
        validatorMembers_append, updateKeys_append]

/-- Every collected validator member's name starts with `validate_`. -/
theorem validatorMembers_startsWith (chain : List (List (String × Member))) :
    ∀ kv ∈ validatorMembers chain, strStartsWith kv.1 "validate_" = true := by
  intro kv hm
  unfold validatorMembers at hm
  rw [List.mem_flatten] at hm
  obtain ⟨l, hl, hkv⟩ := hm
  rw [List.mem_map] at hl
  obtain ⟨attrs, hat, hla⟩ := hl
  rw [← hla] at hkv
  unfold attrsValidatorMembers at hkv
  rw [List.mem_map] at hkv
  obtain ⟨nm, hnm, hnmkv⟩ := hkv
  rw [← hnmkv]
  exact ((Bool.and_eq_true _ _).mp (List.mem_filter.mp hnm).2).1

/-- Every key after an update is an old key or an update key. -/
theorem mem_updateKeys_map_fst {α : Type} (e d : List (String × α)) (k' : String)
    (h : k' ∈ (updateKeys d e).map Prod.fst) :
    k' ∈ d.map Prod.fst ∨ k' ∈ e.map Prod.fst := by
  induction e generalizing d with
  | nil => exact Or.inl h
  | cons kv rest ih =>
      rcases ih (setKey d kv.1 kv.2) h with h1 | h1
      · rcases mem_setKey_map_fst d kv.1 kv.2 k' h1 with h2 | h2
        · exact Or.inl h2
        · exact Or.inr (by simp [h2])
      · exact Or.inr (by
          simp only [List.map_cons, List.mem_cons]
          exact Or.inr h1)

/-- Every key of the accumulated mapping starts with `validate_`. -/
theorem chainValidators_keys_startsWith (chain : List (List (String × Member))) :
    ∀ k ∈ (chainValidators chain).map Prod.fst, strStartsWith k "validate_" = true := by
  intro k hk
  rw [chainValidators_eq] at hk
  rcases mem_updateKeys_map_fst (validatorMembers chain) [] k hk with h | h
  · simp at h
  · rw [List.mem_map] at h
    obtain ⟨kv, hm, hkv⟩ := h
    rw [← hkv]
    exact validatorMembers_startsWith chain kv hm

/-- The keys of a class body's validator members come from the body. -/
theorem attrsValidatorMembers_keys_sub (attrs : List (String × Member)) :
    ∀ kv ∈ attrsValidatorMembers attrs, kv.1 ∈ attrs.map Prod.fst := by
  intro kv hm
  unfold attrsValidatorMembers at hm
  rw [List.mem_map] at hm
  obtain ⟨nm, hnm, hkv⟩ := hm
  rw [← hkv]
  exact List.mem_map_of_mem Prod.fst (List.mem_filter.mp hnm).1

/-- Validator members of a duplicate-free class body have duplicate-free
keys. -/
theorem attrsValidatorMembers_nodup (attrs : List (String × Member))
    (hnd : (attrs.map Prod.fst).Nodup) :
    ((attrsValidatorMembers attrs).map Prod.fst).Nodup := by
  have hsub : List.Sublist ((attrsValidatorMembers attrs).map Prod.fst)
      (attrs.map Prod.fst) := by
    unfold attrsValidatorMembers
    rw [List.map_map]
    exact List.Sublist.map Prod.fst (List.filter_sublist attrs)
  exact hnd.sublist hsub

/-- A validator-shaped member found in a duplicate-free class body under
a key is collected under that key with its identity. -/
theorem attrsValidatorMembers_getKey (attrs : List (String × Member)) (k : String)
    (m : Member) (hnd : (attrs.map Prod.fst).Nodup) (h : getKey attrs k = some m)
    (hp : strStartsWith k "validate_" = true) (hc : m.callable = true) :
    getKey (attrsValidatorMembers attrs) k = some m.id := by
  induction attrs with
  | nil => simp [getKey] at h
  | cons nm rest ih =>
      rcases List.nodup_cons.mp hnd with ⟨hk, hrest⟩
      by_cases he : nm.1 = k
      · have hm : nm.2 = m := by simpa [getKey, he] using h
        have hcons : attrsValidatorMembers (nm :: rest)
            = (nm.1, nm.2.id) :: attrsValidatorMembers rest := by
          simp [attrsValidatorMembers, List.filter_cons, he, hm, hp, hc]
        rw [hcons]
        simp [getKey, he, hm]
      · have h2 : getKey rest k = some m := by simpa [getKey, he] using h
        by_cases hpn : (strStartsWith nm.1 "validate_" && nm.2.callable) = true
        · have hcons : attrsValidatorMembers (nm :: rest)
              = (nm.1, nm.2.id) :: attrsValidatorMembers rest := by
            simp [attrsValidatorMembers, List.filter_cons, hpn]
          rw [hcons, getKey, if_neg he]
          exact ih hrest h2
        · have hcons : attrsValidatorMembers (nm :: rest)
              = attrsValidatorMembers rest := by
            simp [attrsValidatorMembers, List.filter_cons, hpn]
          rw [hcons]
          exact ih hrest h2

/-- `getattr` on the chain agrees with the accumulated `_validators`
mapping: the value under each key is the most-derived definition, which
is what attribute lookup finds.  Requires the standard well-formedness
of Python class bodies (duplicate-free member names) and that every
`validate_`-named member is callable. -/
theorem getattrChain_eq_chainValidators (chain : List (List (String × Member)))
    (hnd : ∀ attrs ∈ chain, (attrs.map Prod.fst).Nodup)
    (hcb : ∀ attrs ∈ chain, ∀ nm ∈ attrs,
      strStartsWith nm.1 "validate_" = true → nm.2.callable = true)
    (k : String) (v : Nat) (h : getKey (chainValidators chain) k = some v) :
    getattrChain chain k = some v := by
  induction chain using List.reverseRecOn with
  | nil => simp [chainValidators, getKey] at h
  | append_singleton chain attrs ih =>
      have hndA : (attrs.map Prod.fst).Nodup := hnd attrs (by simp)
      have hnd2 : ∀ a ∈ chain, (a.map Prod.fst).Nodup :=
        fun a ha => hnd a (by simp [ha])
      have hcb2 : ∀ a ∈ chain, ∀ nm ∈ a,
          strStartsWith nm.1 "validate_" = true → nm.2.callable = true :=
        fun a ha => hcb a (by simp [ha])
      have hstart : strStartsWith k "validate_" = true := by
        apply chainValidators_keys_startsWith (chain ++ [attrs])
        rw [List.mem_map]
        exact ⟨(k, v), getKey_mem _ k v h, rfl⟩
      rw [chainValidators_append, fieldMetaValidators_single,
        updateKeys_nil (chainValidators chain) (chainValidators_nodup chain)] at h
      unfold getattrChain
      rw [List.reverse_append, List.reverse_singleton, List.singleton_append,
        List.findSome?_cons]
      cases hga : getKey attrs k with
      | some m =>
          have hcall : m.callable = true :=
            hcb attrs (by simp) (k, m) (getKey_mem attrs k m hga) hstart
          have hmem : getKey (updateKeys (chainValidators chain)
              (attrsValidatorMembers attrs)) k = some m.id :=
            getKey_updateKeys_of_mem _ _ _ _ (attrsValidatorMembers_nodup attrs hndA)
              (attrsValidatorMembers_getKey attrs k m hndA hga hstart hcall)
          rw [h] at hmem
          simp only [Option.some.injEq] at hmem
          simp [hmem]
      | none =>
          have hnmem : ∀ kv ∈ attrsValidatorMembers attrs, kv.1 ≠ k := by
            intro kv hm he
            exact ((getKey_eq_none_iff attrs k).mp hga)
              (he ▸ attrsValidatorMembers_keys_sub attrs kv hm)
          rw [getKey_updateKeys_of_not_mem _ _ _ hnmem] at h
          exact ih hnd2 hcb2 h

/-- Claim C2: (1) the `_validators` mapping a field-class chain
accumulates is exactly the keyed in-order insertion of every callable
`validate_`-prefixed member, collected from the most distant ancestor
toward the class itself; (2) inserting under an existing key replaces
the value while keeping the whole key sequence (hence the ancestor's
position) unchanged, and (3) inserting under a fresh key appends at the
end; (4) with well-formed class bodies (duplicate-free member names, and
every `validate_`-named member callable), the `self.validators` list
built by the field constructor is the class-derived validator set —
resolved through `getattr`, hence the most-derived definition per name —
followed by the explicitly passed callable validators. -/
theorem C2_validator_assembly :
    (∀ chain : List (List (String × Member)),
      chainValidators chain = updateKeys [] (validatorMembers chain)) ∧
    (∀ (d : List (String × Nat)) (k : String) (v : Nat), k ∈ d.map Prod.fst →
      (setKey d k v).map Prod.fst = d.map Prod.fst ∧ getKey (setKey d k v) k = some v) ∧
    (∀ (d : List (String × Nat)) (k : String) (v : Nat), k ∉ d.map Prod.fst →
      setKey d k v = d ++ [(k, v)]) ∧
    (∀ (chain : List (List (String × Member))) (ctor : List Member),
      (∀ attrs ∈ chain, (attrs.map Prod.fst).Nodup) →
      (∀ attrs ∈ chain, ∀ nm ∈ attrs,
        strStartsWith nm.1 "validate_" = true → nm.2.callable = true) →
      baseFieldValidators chain ctor
        = (chainValidators chain).map (fun nv => some nv.2)
          ++ (ctor.filter (fun m => m.callable)).map (fun m => some m.id)) := by
  refine ⟨chainValidators_eq,
    fun d k v h => ⟨setKey_map_fst_of_mem d k v h, getKey_setKey_self d k v⟩,
    setKey_of_not_mem, ?_⟩
  intro chain ctor hnd hcb
  unfold baseFieldValidators
  congr 1
  apply List.map_congr_left
  intro nv hm
  exact getattrChain_eq_chainValidators chain hnd hcb nv.1 nv.2
    (getKey_of_mem_nodup _ _ _ (chainValidators_nodup chain) hm)

/-- Witness for C2 at a concrete two-class chain: the root defines
`validate_a` (identity 1) and `validate_b` (identity 2); the subclass
overrides `validate_a` (identity 3) and defines a non-validator member.
The accumulated mapping keeps the root's order with the override's value
(`[(validate_a, 3), (validate_b, 2)]`), and the constructor list appends
the callable explicit validator (identity 50) while dropping the
non-callable one. -/
theorem C2_validator_assembly_witness :
    chainValidators [[("validate_a", ⟨true, 1⟩), ("validate_b", ⟨true, 2⟩)],
        [("validate_a", ⟨true, 3⟩), ("other", ⟨true, 9⟩)]]
      = updateKeys [] (validatorMembers
          [[("validate_a", ⟨true, 1⟩), ("validate_b", ⟨true, 2⟩)],
            [("validate_a", ⟨true, 3⟩), ("other", ⟨true, 9⟩)]]) ∧
    ((setKey [("validate_a", 1), ("validate_b", 2)] "validate_a" 3).map Prod.fst
        = [("validate_a", (1 : Nat)), ("validate_b", 2)].map Prod.fst
      ∧ getKey (setKey [("validate_a", 1), ("validate_b", 2)] "validate_a" 3)
          "validate_a" = some 3) ∧
    setKey [("validate_a", (1 : Nat))] "validate_b" 2
      = [("validate_a", 1)] ++ [("validate_b", 2)] ∧
    baseFieldValidators [[("validate_a", ⟨true, 1⟩), ("validate_b", ⟨true, 2⟩)],
        [("validate_a", ⟨true, 3⟩), ("other", ⟨true, 9⟩)]] [⟨true, 50⟩, ⟨false, 51⟩]
      = (chainValidators [[("validate_a", ⟨true, 1⟩), ("validate_b", ⟨true, 2⟩)],
            [("validate_a", ⟨true, 3⟩), ("other", ⟨true, 9⟩)]]).map (fun nv => some nv.2)
        ++ (([⟨true, 50⟩, ⟨false, 51⟩] : List Member).filter
            (fun m => m.callable)).map (fun m => some m.id) :=
  ⟨C2_validator_assembly.1 _,
   C2_validator_assembly.2.1 _ _ _ (by decide),
   C2_validator_assembly.2.2.1 _ _ _ (by decide),
   C2_validator_assembly.2.2.2 _ _ (by decide) (by decide)⟩

end TBone
